import Mathlib

/-!
A shallow embedding of the sigma server-side component framework
(Go sources: `components` package, `core` package, `handlers` package,
`realtime` package), together with theorems settling the spec claims.

Machine maps (`map[string]interface{}`) are embedded as association lists
with Go assignment semantics; the Go `html/template` engine is embedded
for the placeholder fragment actually used by the repository
(`{{.Field}}` / `{{.A.B}}` chains over dynamically typed data).
-/

namespace SigmaFW

/-- Dynamically-typed state values held in a component's state map
(Go `interface{}`: numbers, strings, booleans, sequences, nested mappings). -/
inductive Value : Type
  | vInt (i : Int)
  | vStr (s : String)
  | vBool (b : Bool)
  | vList (l : List Value)
  | vMap (m : List (String × Value))
deriving Repr

/-- A Go `map[string]interface{}`, embedded as an association list in which
only the first binding of a key is visible. -/
abbrev StateMap := List (String × Value)

/-- Go map read `m[k]` (string-keyed maps: state maps, route tables,
the component registry). -/
def lookupKey {A : Type} (m : List (String × A)) (k : String) : Option A :=
  match m with
  | [] => none
  | (k', v) :: rest => if k' = k then some v else lookupKey rest k

/-- Go map assignment `m[k] = v`: replaces an existing binding, otherwise adds one. -/
def insertKey {A : Type} (m : List (String × A)) (k : String) (v : A) :
    List (String × A) :=
  match m with
  | [] => [(k, v)]
  | (k', v') :: rest => if k' = k then (k, v) :: rest else (k', v') :: insertKey rest k v

/-- One character of `html/template` output escaping
(Go `template.HTMLEscapeString` escapes the five special HTML characters). -/
def escapeChar (c : Char) : String :=
  if c = '<' then "&lt;"
  else if c = '>' then "&gt;"
  else if c = '&' then "&amp;"
  else if c.toNat = 39 then "&#39;"
  else if c.toNat = 34 then "&#34;"
  else String.singleton c

/-- `html/template` escaping of a substituted string. -/
def htmlEscape (s : String) : String :=
  String.join (s.toList.map escapeChar)

mutual
/-- Go `fmt`-style plain printing of a dynamic value (`%v`),
applied by the template engine before output escaping. -/
def plainString : Value → String
  | .vInt i => toString i
  | .vStr s => s
  | .vBool b => if b then "true" else "false"
  | .vList l => "[" ++ plainListString l ++ "]"
  | .vMap m => "map[" ++ plainMapString m ++ "]"

/-- Space-separated printing of a sequence value's elements. -/
def plainListString : List Value → String
  | [] => ""
  | [v] => plainString v
  | v :: rest => plainString v ++ " " ++ plainListString rest

/-- Space-separated printing of a nested mapping's entries. -/
def plainMapString : List (String × Value) → String
  | [] => ""
  | [(k, v)] => k ++ ":" ++ plainString v
  | (k, v) :: rest => k ++ ":" ++ plainString v ++ " " ++ plainMapString rest
end

/-- A parsed template node: literal text, or a field-chain action
(`{{.A.B}}` parses to `action [A, B]`). -/
inductive Node : Type
  | text (s : String)
  | action (path : List String)
deriving Repr, DecidableEq

/-- Characters Go's template parser accepts inside a field identifier. -/
def isIdentChar (c : Char) : Bool :=
  c.isAlphanum || c = '_'

/-- The opening-delimiter character of a template action. -/
def lbrace : Char := Char.ofNat 123

/-- The closing-delimiter character of a template action. -/
def rbrace : Char := Char.ofNat 125

/-- Split a template's characters at every occurrence of the two-character
opening action delimiter. -/
def splitOpen : List Char → List (List Char)
  | [] => [[]]
  | [c] => [[c]]
  | c1 :: c2 :: rest =>
    if c1 = lbrace && c2 = lbrace then
      [] :: splitOpen rest
    else
      match splitOpen (c2 :: rest) with
      | [] => [[c1]]
      | seg :: segs => (c1 :: seg) :: segs

/-- Split a chunk at the first occurrence of the two-character closing action
delimiter into (action text, following literal text); `none` when the action
is never closed (a parse error). -/
def splitClose1 : List Char → Option (List Char × List Char)
  | [] => none
  | [_] => none
  | c1 :: c2 :: rest =>
    if c1 = rbrace && c2 = rbrace then some ([], rest)
    else
      match splitClose1 (c2 :: rest) with
      | none => none
      | some (a, b) => some (c1 :: a, b)

/-- Strip surrounding whitespace from an action's text. -/
def trimChars (l : List Char) : List Char :=
  ((l.dropWhile Char.isWhitespace).reverse.dropWhile Char.isWhitespace).reverse

/-- Split an action's field chain at every dot. -/
def splitDots : List Char → List (List Char)
  | [] => [[]]
  | c :: rest =>
    let r := splitDots rest
    if c = '.' then [] :: r
    else
      match r with
      | [] => [[c]]
      | seg :: segs => (c :: seg) :: segs

/-- Parse the inside of an action: a dot-led chain of field identifiers,
surrounding spaces allowed (the fragment of Go template syntax this
repository's templates use); anything else is treated as a parse error. -/
def parseActionChars (l : List Char) : Option (List String) :=
  match trimChars l with
  | [] => none
  | c :: rest =>
    if c = '.' then
      let parts := splitDots rest
      if parts.all (fun p => !p.isEmpty && p.all isIdentChar) then
        some (parts.map fun p => String.mk p)
      else none
    else none

/-- Parse one chunk following an opening action delimiter: the action text up
to the closing delimiter, then literal text. -/
def parseChunk (chunk : List Char) : Option (List Node) :=
  match splitClose1 chunk with
  | none => none
  | some (a, b) =>
    match parseActionChars a with
    | none => none
    | some path => some [Node.action path, Node.text (String.mk b)]

/-- Parse a template string into nodes: literal text interleaved with
`\x7b\x7b.Field\x7d\x7d` field-chain actions. -/
def parseTemplate (tmpl : String) : Option (List Node) :=
  match splitOpen tmpl.toList with
  | [] => none
  | first :: rest =>
    match rest.mapM parseChunk with
    | none => none
    | some chunks => some (Node.text (String.mk first) :: chunks.flatten)

/-- Resolve a field chain against a value.  Field access on a non-mapping
value is an execution error (Go: "can't evaluate field ... in type ..."), and
a missing key yields the invalid value, which `html/template`'s escaper
rejects with an error. -/
def evalPath : Value → List String → Except String Value
  | v, [] => .ok v
  | .vMap m, k :: rest =>
    match lookupKey m k with
    | some v => evalPath v rest
    | none => .error ("invalid value at field " ++ k)
  | _, k :: _ => .error ("can't evaluate field " ++ k ++ " in non-mapping value")

/-- Execute parsed nodes against a state map, writing output incrementally to
the builder as Go `Execute` writes to its writer: execution stops at the first
failing action, but everything already written stays in the builder (Go:
"partial results may already have been written to the output writer").
Returns the builder contents and the execution error, if any. -/
def execNodes (state : StateMap) : List Node → String × Option String
  | [] => ("", none)
  | Node.text s :: rest =>
    let (out, err) := execNodes state rest
    (s ++ out, err)
  | Node.action path :: rest =>
    match evalPath (.vMap state) path with
    | .error e => ("", some e)
    | .ok v =>
      let (out, err) := execNodes state rest
      (htmlEscape (plainString v) ++ out, err)

/-- A component (Go `components.Component`): name, dynamically typed state
map, template string, optional update callback.  The callback's behavior is
abstract here (type parameter `F`); the mutex `mu` is not part of the
sequential value model and is treated by the interleaving model below. -/
structure Component (F : Type) : Type where
  name : String
  state : StateMap
  template : String
  onUpdate : Option F

/-- Go `components.NewComponent`: a `nil` initial state becomes a fresh empty
map, the reserved "name" key is written into the (caller-supplied) map, and
the component takes that map as its state. -/
def NewComponent {F : Type} (name tmpl : String) (initialState : Option StateMap)
    (onUpdate : Option F) : Component F :=
  let st := initialState.getD []
  { name := name
    state := insertKey st "name" (Value.vStr name)
    template := tmpl
    onUpdate := onUpdate }

/-- Go `Component.SetState`: exclusive upsert of one key. -/
def SetState {F : Type} (c : Component F) (key : String) (value : Value) : Component F :=
  { c with state := insertKey c.state key value }

/-- Go `Component.State`: returns the live state map. -/
def State {F : Type} (c : Component F) : StateMap :=
  c.state

namespace ComponentsCur

/-- `Component.Render` as in the revisions at src/unnamed/part_001 (lines
62-88) and part_002: parse the template (`template.Must` panics on a parse
error, modelled as `none`), execute it against the state, and on an execution
error return the empty string together with the error. -/
def Render {F : Type} (c : Component F) : Option (String × Option String) :=
  match parseTemplate c.template with
  | none => none
  | some nodes =>
    let (out, err) := execNodes c.state nodes
    match err with
    | some e => some ("", some e)
    | none => some (out, none)

end ComponentsCur

namespace ComponentsV0

/-- `Component.Render` as in the revision at src/unnamed/part_000 (lines
31-38): parse, execute, and return `buf.String(), err` - the builder contents
are returned even when execution failed. -/
def Render {F : Type} (c : Component F) : Option (String × Option String) :=
  match parseTemplate c.template with
  | none => none
  | some nodes => some (execNodes c.state nodes)

end ComponentsV0

/-- An inbound HTTP-like request: method and exact path (the router consumes
nothing else). -/
structure Request : Type where
  method : String
  path : String
deriving Repr, DecidableEq

/-- What a handler or the router writes to the response sink: status code,
body bytes, and content type header if one was set. -/
structure Response : Type where
  status : Nat
  body : String
  contentType : Option String
deriving Repr, DecidableEq

/-- Go `http.Error(w, msg, code)`: sets the plain-text content type, writes
the status code, and writes the message followed by a newline. -/
def httpError (msg : String) (status : Nat) : Response :=
  { status := status, body := msg ++ "\n", contentType := some "text/plain; charset=utf-8" }

/-- Go `core.Context`: the per-request bundle handed to a handler - the
inbound request, the response sink (abstract sink type `W`), and the route
parameter map. -/
structure Context (W : Type) : Type where
  req : Request
  resp : W
  params : List (String × String)

/-- Go `core.Sigma`: the route table (method, then exact path, to handler)
and the component registry (name to component).  Handlers (`H`) and
registered components (`C`) are type parameters. -/
structure Sigma (H C : Type) : Type where
  routes : List (String × List (String × H))
  components : List (String × C)

/-- Go `core.New`: empty route table, empty registry. -/
def New (H C : Type) : Sigma H C :=
  { routes := [], components := [] }

/-- Go `Sigma.Handle`: lazily create the inner path map for the method, then
assign the handler to the path (replacing any earlier one). -/
def Handle {H C : Type} (s : Sigma H C) (method path : String) (handler : H) :
    Sigma H C :=
  let methodRoutes := (lookupKey s.routes method).getD []
  { s with routes := insertKey s.routes method (insertKey methodRoutes path handler) }

/-- Go `Sigma.RegisterComponent`: key the registry by
`c.State()["name"].(string)`; a missing key or a non-string value there makes
the type assertion panic (modelled as `none`). -/
def RegisterComponent {H F : Type} (s : Sigma H (Component F)) (c : Component F) :
    Option (Sigma H (Component F)) :=
  match lookupKey (State c) "name" with
  | some (Value.vStr n) => some { s with components := insertKey s.components n c }
  | _ => none

/-- The outcome of one dispatch: either an error response written directly by
the router (no handler runs), or the synchronous invocation of exactly the
matched handler with the context constructed for this request. -/
inductive DispatchResult (H W : Type) : Type
  | errorResponse (resp : Response)
  | invoke (handler : H) (ctx : Context W)

/-- Go `Sigma.ServeHTTP`: look up the method (absent: 405 and stop), then the
exact path (absent: 404 and stop), else build a fresh context (request,
response sink, empty params) and call the matched handler with it. -/
def ServeHTTP {H C W : Type} (s : Sigma H C) (w : W) (r : Request) :
    DispatchResult H W :=
  match lookupKey s.routes r.method with
  | none => .errorResponse (httpError "Method not allowed" 405)
  | some methodRoutes =>
    match lookupKey methodRoutes r.path with
    | none => .errorResponse (httpError "Not found" 404)
    | some handler => .invoke handler { req := r, resp := w, params := [] }

/-- Outcome of invoking a component's update callback: normal return, or an
unrecoverable fault (Go panic) carrying its value. -/
inductive UpdateOutcome : Type
  | ok
  | panicked (msg : String)
deriving Repr, DecidableEq

/-- One run of the update handler: what it wrote to the response sink, how
many times it invoked the component's `Update`, and whether a fault escaped
the handler (`none`: contained). -/
structure HandlerRun : Type where
  resp : Response
  updateCalls : Nat
  escaped : Option String
deriving Repr, DecidableEq

/-- Go `handlers.UpdateComponent` (src/handlers/handlers.go): the produced
handler rejects non-POST with a 405 before touching the component; otherwise
it invokes `component.Update(c)` under a deferred `recover` that converts a
panic into a bare 500 "Server error" response and stops its propagation; on
normal return it writes a plain-text 200 "OK".  The component's callback
behavior is abstracted as `upd`. -/
def UpdateComponent {W : Type} (upd : Context W → UpdateOutcome) (c : Context W) :
    HandlerRun :=
  if c.req.method ≠ "POST" then
    { resp := httpError "Method not allowed" 405, updateCalls := 0, escaped := none }
  else
    match upd c with
    | .panicked _ =>
      { resp := { status := 500, body := "Server error", contentType := none }
        updateCalls := 1
        escaped := none }
    | .ok =>
      { resp := { status := 200, body := "OK", contentType := some "text/plain" }
        updateCalls := 1
        escaped := none }

/-- One resolution of the streaming loop's `select`: which of the two
channels (the ticker's and the request context's Done channel) were ready
when the `select` resolved, and whether the Done case was the one chosen.
Go's `select` only ever chooses a ready case, and chooses among
simultaneously ready cases without priority. -/
structure SelStep : Type where
  tickReady : Bool
  cancelReady : Bool
  choseCancel : Bool
deriving Repr, DecidableEq

/-- A run of select resolutions is possible under Go semantics if every step
chooses a case that is ready, and the Done channel, once closed, stays closed
(`cancelSoFar` carries whether cancellation has already fired). -/
def validSchedule (cancelSoFar : Bool) : List SelStep → Bool
  | [] => true
  | st :: rest =>
    (if st.choseCancel then st.cancelReady else st.tickReady)
      && (!cancelSoFar || st.cancelReady)
      && validSchedule (cancelSoFar || st.cancelReady) rest

/-- The event frame written for one tick (part_003 lines 61-72): on a render
error, `"data: Error: %v\n\n"`; otherwise `"data: %s\n\n"` with the markup. -/
def frameFor : Except String String → String
  | .ok html => "data: " ++ html ++ "\n\n"
  | .error e => "data: Error: " ++ e ++ "\n\n"

/-- Observable outcome of the streaming loop: the event frames written in
order, the number of forced flushes, how many times the ticker was stopped,
and whether the loop has returned. -/
structure StreamRun : Type where
  frames : List String
  flushes : Nat
  tickerStops : Nat
  exited : Bool
deriving Repr, DecidableEq

/-- The `for`/`select` loop of `realtime.SSEHandler` (part_003 lines 47-78),
run under a finite prefix of select resolutions.  `renderAt k` is the outcome
of the k-th call to `component.Render()` (the component's state may change
between ticks).  The Done case makes the handler return, running the deferred
`ticker.Stop()`; a tick writes one frame and flushes.  A schedule prefix that
ends before cancellation leaves the loop live (not exited, ticker not yet
stopped). -/
def sseLoop (renderAt : Nat → Except String String) (k : Nat) :
    List SelStep → StreamRun
  | [] => { frames := [], flushes := 0, tickerStops := 0, exited := false }
  | st :: rest =>
    if st.choseCancel then
      { frames := [], flushes := 0, tickerStops := 1, exited := true }
    else
      let r := sseLoop renderAt (k + 1) rest
      { frames := frameFor (renderAt k) :: r.frames
        flushes := r.flushes + 1
        tickerStops := r.tickerStops
        exited := r.exited }

/-- Outcome of the whole push-stream handler: headers set on entry, the
early 500 when the sink cannot flush, and the loop's run. -/
structure SSEOutcome : Type where
  headers : List (String × String)
  earlyError : Option Response
  run : StreamRun

/-- Go `realtime.SSEHandler` (part_003): set the three event-stream headers;
if the response sink does not support flushing, a 500 "Streaming not
supported" and return before any ticker exists; otherwise create the ticker
(stopped by a deferred call on exit) and enter the loop. -/
def SSEHandler (flusherOk : Bool) (renderAt : Nat → Except String String)
    (schedule : List SelStep) : SSEOutcome :=
  let hdrs := [("Content-Type", "text/event-stream"),
               ("Cache-Control", "no-cache"),
               ("Connection", "keep-alive")]
  if !flusherOk then
    { headers := hdrs
      earlyError := some (httpError "Streaming not supported" 500)
      run := { frames := [], flushes := 0, tickerStops := 0, exited := true } }
  else
    { headers := hdrs, earlyError := none, run := sseLoop renderAt 0 schedule }

/-- Number of ticks the loop processes before the Done case is chosen (or the
schedule prefix ends). -/
def ticksBefore : List SelStep → Nat
  | [] => 0
  | st :: rest => if st.choseCancel then 0 else ticksBefore rest + 1

/-- Number of frames the loop writes at steps taken after cancellation has
already fired (the Done channel closed at or before the step), counted along
a schedule. -/
def framesAfterCancelFired (cancelSoFar : Bool) : List SelStep → Nat
  | [] => 0
  | st :: rest =>
    let fired := cancelSoFar || st.cancelReady
    if st.choseCancel then 0
    else (if fired then 1 else 0) + framesAfterCancelFired fired rest

/-- The heap of live state maps: a Go map value is a reference into it
(pointer-level model used for constructor aliasing). -/
abbrev Heap := List StateMap

/-- Dereference a state-map reference. -/
def heapGet (h : Heap) (r : Nat) : StateMap :=
  h.getD r []

/-- Store through a state-map reference. -/
def heapSet (h : Heap) (r : Nat) (m : StateMap) : Heap :=
  h.set r m

/-- A component at the pointer level: the state field is a reference to a
heap cell rather than a copy of the map. -/
structure ComponentH (F : Type) : Type where
  name : String
  stateRef : Nat
  template : String
  onUpdate : Option F

namespace ComponentsHeap

/-- Go `components.NewComponent` (part_000 lines 18-29) at the pointer level:
a `nil` initial state allocates a fresh empty map; the reserved "name" key is
written through the caller's reference (`initialState["name"] = name`); the
component stores that same reference - the caller-supplied map is aliased,
not copied. -/
def NewComponent {F : Type} (name tmpl : String) (initialState : Option Nat)
    (onUpdate : Option F) (h : Heap) : ComponentH F × Heap :=
  let alloc := match initialState with
    | none => (h.length, h ++ [([] : StateMap)])
    | some r => (r, h)
  let r := alloc.1
  let h1 := alloc.2
  let h2 := heapSet h1 r (insertKey (heapGet h1 r) "name" (Value.vStr name))
  ({ name := name, stateRef := r, template := tmpl, onUpdate := onUpdate }, h2)

end ComponentsHeap

/-!
Interleaving model for the component's concurrency contract: each exported
operation is a sequence of atomic micro-actions against the component's one
mutex and its state map, and two concurrent calls are an interleaved
execution of their action sequences under mutex semantics.  A Go map
assignment is not atomic, so a write is two phases (`writeStart`/`writeEnd`);
a read landing between them observes a partially written map.
-/

/-- Atomic micro-actions of one thread on one component. -/
inductive Act : Type
  | lock
  | unlock
  | readState
  | writeStart
  | writeEnd
deriving Repr, DecidableEq

/-- How one action affects the mutex: `lock` needs the mutex free, `unlock`
needs the acting thread to hold it (Go `sync.Mutex` discipline as used here);
plain state accesses are not arbitrated by the semantics - racing them is
exactly what the lock must prevent. -/
def stepAct (owner : Option Bool) (t : Bool) : Act → Option (Option Bool)
  | .lock => if owner = none then some (some t) else none
  | .unlock => if owner = some t then some none else none
  | _ => some owner

/-- Update one thread's remaining program. -/
def setProg (p : Bool → List Act) (t : Bool) (l : List Act) : Bool → List Act :=
  fun b => if b = t then l else p b

/-- Execute a schedule (which thread takes its next micro-action at each
step) over the two threads' remaining programs.  `none`: the schedule is not
realizable (a thread was scheduled with no action left or a blocked one);
otherwise the trace of executed actions. -/
def exec : List Bool → Option Bool → (Bool → List Act) →
    Option (List (Bool × Act))
  | [], _, _ => some []
  | x :: sched, owner, p =>
    match p x with
    | [] => none
    | a :: rest =>
      match stepAct owner x a with
      | none => none
      | some owner' =>
        match exec sched owner' (setProg p x rest) with
        | none => none
        | some tr => some ((x, a) :: tr)

/-- A trace's thread ids show an overlap when, after the first thread's
block, that thread acts again following an action of the other thread -
i.e. one call ran strictly inside the other call's duration. -/
def tailSerial (t : Bool) : List Bool → Bool
  | [] => true
  | x :: xs => if x = t then tailSerial t xs else xs.all (fun y => y = !t)

/-- `true` when the interleaving is not serial: some thread's action falls
strictly between two actions of the other thread. -/
def overlappedTids : List Bool → Bool
  | [] => false
  | t :: rest => ! tailSerial t rest

/-- Scan a trace for a torn read: a thread reads the state map while the
other thread is between the two phases of a map write. -/
def hasTornRead (inwT inwF : Bool) : List (Bool × Act) → Bool
  | [] => false
  | (t, a) :: tr =>
    match a with
    | .readState => (if t then inwF else inwT) || hasTornRead inwT inwF tr
    | .writeStart => hasTornRead (inwT || t) (inwF || !t) tr
    | .writeEnd => hasTornRead (inwT && !t) (inwF && t) tr
    | _ => hasTornRead inwT inwF tr

/-- A program whose state accesses all happen while it holds the lock, whose
write phases are properly bracketed, and whose lock use is balanced
(`held`: it currently holds the mutex; `inw`: it is mid-write). -/
def wfProg (held inw : Bool) : List Act → Bool
  | [] => true
  | .lock :: r => !held && !inw && wfProg true inw r
  | .unlock :: r => held && !inw && wfProg false inw r
  | .readState :: r => held && !inw && wfProg held inw r
  | .writeStart :: r => held && !inw && wfProg held true r
  | .writeEnd :: r => held && inw && wfProg held false r

/-- Lock-free action lists: the body of a single critical section. -/
def lockFreeL (l : List Act) : Bool :=
  l.all fun a =>
    match a with
    | .lock => false
    | .unlock => false
    | _ => true

/-- `Component.Render` (part_000 line 31: lock, read the state during
template execution, unlock) as a micro-action sequence. -/
def renderProg : List Act := [.lock, .readState, .unlock]

/-- `Component.State` (lock, read, unlock). -/
def stateProg : List Act := [.lock, .readState, .unlock]

/-- `Component.SetState` (lock, one map assignment, unlock). -/
def setStateProg : List Act := [.lock, .writeStart, .writeEnd, .unlock]

/-- `Component.Update` in the revisions at part_000 (lines 40-44) and
part_001: no lock of its own - it runs the callback's actions directly. -/
def updateProg (cb : List Act) : List Act := cb

/-- `Component.Update` in the revision at part_002 (lines 90-100): the
callback runs inside the component's own critical section. -/
def updateProgLocked (cb : List Act) : List Act :=
  .lock :: cb ++ [.unlock]

/-- The callback of the counter application (src/main.go lines 18-21):
`c.State()` then `c.SetState(...)`, each through the synchronized accessor. -/
def counterCallback : List Act := stateProg ++ setStateProg

/-- Two lock-wrapped operations racing on the same component. -/
def wrapProgs (pbody qbody : List Act) : Bool → List Act :=
  fun b => if b then .lock :: pbody ++ [.unlock] else .lock :: qbody ++ [.unlock]

/-- Two arbitrary operations racing on the same component. -/
def twoProgs (pT pF : List Act) : Bool → List Act :=
  fun b => if b then pT else pF

/-- Update one component's mutex owner. -/
def updateOwner (o : Bool → Option Bool) (c : Bool) (v : Option Bool) :
    Bool → Option Bool :=
  fun b => if b = c then v else o b

/-- `stepAct` generalized to per-instance mutexes (each Go `Component` has
its own `mu`): an action arbitrates only the mutex of the component `c` the
acting thread targets. -/
def stepActC (owners : Bool → Option Bool) (c t : Bool) :
    Act → Option (Bool → Option Bool)
  | .lock => if owners c = none then some (updateOwner owners c (some t)) else none
  | .unlock => if owners c = some t then some (updateOwner owners c none) else none
  | _ => some owners

/-- Interleaving semantics over two component instances: `comp t` is the
instance thread `t` operates on, and each instance carries its own mutex.
With both threads on the same instance this coincides with `exec` (see
`execC_one_component`); with `comp` the identity the threads target
different instances. -/
def execC : List Bool → (Bool → Option Bool) → (Bool → Bool) →
    (Bool → List Act) → Option (List (Bool × Act))
  | [], _, _, _ => some []
  | x :: sched, owners, comp, p =>
    match p x with
    | [] => none
    | a :: rest =>
      match stepActC owners (comp x) x a with
      | none => none
      | some owners' =>
        match execC sched owners' comp (setProg p x rest) with
        | none => none
        | some tr => some ((x, a) :: tr)

/-- A schedule that only ever picks a thread with actions remaining, given
how many actions each thread still has. -/
def consumable : List Bool → Nat → Nat → Bool
  | [], _, _ => true
  | x :: s, nT, nF =>
    if x then decide (0 < nT) && consumable s (nT - 1) nF
    else decide (0 < nF) && consumable s nT (nF - 1)

/-! Helper lemmas about the map embedding and the heap. -/

theorem lookupKey_insertKey_self {A : Type} (m : List (String × A)) (k : String) (v : A) :
    lookupKey (insertKey m k v) k = some v := by
  induction m with
  | nil => simp [insertKey, lookupKey]
  | cons p rest ih =>
    obtain ⟨k', v'⟩ := p
    by_cases h : k' = k
    · simp [insertKey, lookupKey, h]
    · simp [insertKey, lookupKey, h, ih]

theorem lookupKey_insertKey_ne {A : Type} (m : List (String × A)) (k k' : String) (v : A)
    (h : k' ≠ k) : lookupKey (insertKey m k v) k' = lookupKey m k' := by
  have hk : k ≠ k' := Ne.symm h
  induction m with
  | nil => simp [insertKey, lookupKey, hk]
  | cons p rest ih =>
    obtain ⟨k0, v0⟩ := p
    by_cases h0 : k0 = k
    · subst h0
      simp [insertKey, lookupKey, hk]
    · simp [insertKey, lookupKey, h0, ih]

theorem heapGet_heapSet_self (h : Heap) (r : Nat) (m : StateMap) (hr : r < h.length) :
    heapGet (heapSet h r m) r = m := by
  induction h generalizing r with
  | nil => simp at hr
  | cons x rest ih =>
    cases r with
    | zero => simp [heapGet, heapSet]
    | succ n =>
      simp only [heapGet, heapSet, List.set_cons_succ, List.getD_cons_succ]
      exact ih n (by simpa using hr)

/-! Claim theorems. -/

/-- C1 counterexample: in the `Component.Render` revision at
src/unnamed/part_000 lines 31-38 (`return buf.String(), err`), a component
whose template fails mid-execution returns the already-written output "Hi "
alongside the error, refuting "returns an error and an empty output string:
no partial output is ever returned alongside a render failure". -/
theorem render_v0_partial_output_cex :
    ComponentsV0.Render (NewComponent "t" "Hi \x7b\x7b.A.B\x7d\x7d"
        (some [("A", Value.vInt 0)]) (none : Option Unit))
      = some ("Hi ", some "can't evaluate field B in non-mapping value")
    ∧ ("Hi " : String) ≠ "" :=
  ⟨by decide, by decide⟩

/-- C1 (amended): in the `Component.Render` revision at part_001 lines 62-88
(and part_002), a failed template execution returns the empty string together
with the error - no partial output; the part_000 revision instead returns
the builder's contents alongside the error. -/
theorem render_failure_returns_empty (F : Type) (c : Component F) (out e : String)
    (h : ComponentsCur.Render c = some (out, some e)) : out = "" := by
  cases hp : parseTemplate c.template with
  | none => simp only [ComponentsCur.Render, hp] at h; cases h
  | some nodes =>
    cases he : execNodes c.state nodes with
    | mk o err =>
      cases err with
      | none =>
        simp only [ComponentsCur.Render, hp, he, Option.some.injEq, Prod.mk.injEq] at h
        exact absurd h.2 (by simp)
      | some e' =>
        simp only [ComponentsCur.Render, hp, he, Option.some.injEq, Prod.mk.injEq] at h
        exact h.1.symm

/-- C1 witness: the amended theorem applied at a concretely failing render. -/
theorem render_failure_returns_empty_w :
    ComponentsCur.Render (NewComponent "t" "Hi \x7b\x7b.A.B\x7d\x7d"
        (some [("A", Value.vInt 0)]) (none : Option Unit))
      = some ("", some "can't evaluate field B in non-mapping value")
    ∧ ("" : String) = "" :=
  ⟨by decide, render_failure_returns_empty Unit
    (NewComponent "t" "Hi \x7b\x7b.A.B\x7d\x7d" (some [("A", Value.vInt 0)]) (none : Option Unit))
    "" "can't evaluate field B in non-mapping value" (by decide)⟩

/-- C9: the counter component of src/main.go (template with a single
placeholder bound to state key Count, initially 0) renders output containing
the literal substitution "0", and after `SetState("Count", 1)` a subsequent
render contains "1". -/
theorem counter_state_round_trip :
    (∃ pre post,
      ComponentsCur.Render (NewComponent "counter"
          "<div id=\"counter\">Count: \x7b\x7b.Count\x7d\x7d</div>"
          (some [("Count", Value.vInt 0)]) (none : Option Unit))
        = some (pre ++ "0" ++ post, none))
    ∧ (∃ pre post,
      ComponentsCur.Render (SetState (NewComponent "counter"
          "<div id=\"counter\">Count: \x7b\x7b.Count\x7d\x7d</div>"
          (some [("Count", Value.vInt 0)]) (none : Option Unit))
          "Count" (Value.vInt 1))
        = some (pre ++ "1" ++ post, none)) := by
  refine ⟨⟨"<div id=\"counter\">Count: ", "</div>", ?_⟩,
          ⟨"<div id=\"counter\">Count: ", "</div>", ?_⟩⟩ <;> rfl

/-- C10: `NewComponent` at the pointer level - with a caller-supplied state
map the component stores the same reference (aliasing, no copy), writes the
reserved "name" key through it (overwriting any caller entry), and leaves
other keys untouched; with a nil initial state the constructed state holds
exactly the one reserved binding. -/
theorem new_component_state_contract :
    (∀ (F : Type) (name tmpl : String) (upd : Option F) (h : Heap) (r : Nat),
      r < h.length →
      (ComponentsHeap.NewComponent name tmpl (some r) upd h).1.stateRef = r
      ∧ lookupKey (heapGet (ComponentsHeap.NewComponent name tmpl (some r) upd h).2 r)
          "name" = some (Value.vStr name)
      ∧ ∀ k, k ≠ "name" →
          lookupKey (heapGet (ComponentsHeap.NewComponent name tmpl (some r) upd h).2 r) k
            = lookupKey (heapGet h r) k)
    ∧ (∀ (F : Type) (name tmpl : String) (upd : Option F) (h : Heap),
      heapGet (ComponentsHeap.NewComponent name tmpl none upd h).2
          (ComponentsHeap.NewComponent name tmpl none upd h).1.stateRef
        = [("name", Value.vStr name)]) := by
  constructor
  · intro F name tmpl upd h r hr
    refine ⟨rfl, ?_, ?_⟩
    · show lookupKey (heapGet (heapSet h r (insertKey (heapGet h r) "name"
        (Value.vStr name))) r) "name" = some (Value.vStr name)
      rw [heapGet_heapSet_self h r _ hr, lookupKey_insertKey_self]
    · intro k hk
      show lookupKey (heapGet (heapSet h r (insertKey (heapGet h r) "name"
        (Value.vStr name))) r) k = lookupKey (heapGet h r) k
      rw [heapGet_heapSet_self h r _ hr, lookupKey_insertKey_ne _ _ _ _ hk]
  · intro F name tmpl upd h
    show heapGet (heapSet (h ++ [[]]) h.length
        (insertKey (heapGet (h ++ [[]]) h.length) "name" (Value.vStr name))) h.length
      = [("name", Value.vStr name)]
    rw [heapGet_heapSet_self _ _ _ (by simp)]
    have : heapGet (h ++ [[]]) h.length = [] := by
      simp [heapGet, List.getD_eq_getElem?_getD]
    rw [this]
    rfl

/-- C10 witness: the constructor contract applied at a concrete heap holding
one caller-supplied map that already binds "name" and another key. -/
theorem new_component_state_contract_w :
    (ComponentsHeap.NewComponent (F := Unit) "counter" "t"
        (some 0) none [[("name", Value.vStr "old"), ("Count", Value.vInt 0)]]).1.stateRef = 0
    ∧ lookupKey (heapGet (ComponentsHeap.NewComponent (F := Unit) "counter" "t"
        (some 0) none [[("name", Value.vStr "old"), ("Count", Value.vInt 0)]]).2 0)
        "name" = some (Value.vStr "counter")
    ∧ lookupKey (heapGet (ComponentsHeap.NewComponent (F := Unit) "counter" "t"
        (some 0) none [[("name", Value.vStr "old"), ("Count", Value.vInt 0)]]).2 0)
        "Count" = some (Value.vInt 0) := by
  obtain ⟨h1, h2, h3⟩ := new_component_state_contract.1 Unit "counter" "t" none
    [[("name", Value.vStr "old"), ("Count", Value.vInt 0)]] 0 (by decide)
  exact ⟨h1, h2, by rw [h3 "Count" (by decide)]; rfl⟩

/-- C6: after `RegisterComponent(c)` on a component whose reserved state key
still holds its declared name, looking the registry up by that name returns
the same component; registering two components carrying the same name in
sequence leaves only the second reachable under it (last-write-wins). -/
theorem register_component_lookup :
    (∀ (H F : Type) (s : Sigma H (Component F)) (c : Component F),
      lookupKey (State c) "name" = some (Value.vStr c.name) →
      ∃ s', RegisterComponent s c = some s'
        ∧ lookupKey s'.components c.name = some c)
    ∧ (∀ (H F : Type) (s s1 s2 : Sigma H (Component F)) (c1 c2 : Component F)
        (n : String),
      lookupKey (State c1) "name" = some (Value.vStr n) →
      lookupKey (State c2) "name" = some (Value.vStr n) →
      RegisterComponent s c1 = some s1 →
      RegisterComponent s1 c2 = some s2 →
      lookupKey s2.components n = some c2) := by
  constructor
  · intro H F s c hname
    refine ⟨{ s with components := insertKey s.components c.name c }, ?_, ?_⟩
    · simp only [RegisterComponent, hname]
    · exact lookupKey_insertKey_self s.components c.name c
  · intro H F s s1 s2 c1 c2 n h1 h2 hr1 hr2
    simp only [RegisterComponent, h2] at hr2
    injection hr2 with h
    subst h
    exact lookupKey_insertKey_self s1.components n c2

/-- C6 witness: registering two freshly constructed components named
"counter" leaves only the second reachable under that name. -/
theorem register_component_lookup_w :
    (∃ s', RegisterComponent (New Unit (Component Unit))
        (NewComponent "counter" "a" none (none : Option Unit)) = some s'
      ∧ lookupKey s'.components "counter"
          = some (NewComponent "counter" "a" none (none : Option Unit)))
    ∧ ∀ s1 s2,
      RegisterComponent (New Unit (Component Unit))
          (NewComponent "counter" "a" none (none : Option Unit)) = some s1 →
      RegisterComponent s1 (NewComponent "counter" "b" none (none : Option Unit))
          = some s2 →
      lookupKey s2.components "counter"
        = some (NewComponent "counter" "b" none (none : Option Unit)) := by
  constructor
  · exact register_component_lookup.1 Unit Unit (New Unit (Component Unit))
      (NewComponent "counter" "a" none (none : Option Unit)) (by rfl)
  · intro s1 s2 hr1 hr2
    exact register_component_lookup.2 Unit Unit (New Unit (Component Unit)) s1 s2
      (NewComponent "counter" "a" none (none : Option Unit))
      (NewComponent "counter" "b" none (none : Option Unit))
      "counter" (by rfl) (by rfl) hr1 hr2

/-- C2: `Sigma.ServeHTTP` - a method with no registered routes yields the
405 response and no handler invocation; a registered method with an
unmatched path yields the 404 response and no handler invocation; otherwise
exactly the matched handler is invoked, synchronously, with a freshly
constructed context carrying the request, the response sink, and an empty
parameter mapping (`DispatchResult.invoke` is the one handler invocation the
dispatch performs). -/
theorem serve_http_dispatch :
    (∀ (H C W : Type) (s : Sigma H C) (w : W) (r : Request),
      lookupKey s.routes r.method = none →
      ServeHTTP s w r = .errorResponse (httpError "Method not allowed" 405))
    ∧ (∀ (H C W : Type) (s : Sigma H C) (w : W) (r : Request)
        (mr : List (String × H)),
      lookupKey s.routes r.method = some mr →
      lookupKey mr r.path = none →
      ServeHTTP s w r = .errorResponse (httpError "Not found" 404))
    ∧ (∀ (H C W : Type) (s : Sigma H C) (w : W) (r : Request)
        (mr : List (String × H)) (h : H),
      lookupKey s.routes r.method = some mr →
      lookupKey mr r.path = some h →
      ServeHTTP s w r = .invoke h { req := r, resp := w, params := [] }) := by
  refine ⟨?_, ?_, ?_⟩
  · intro H C W s w r hm
    simp only [ServeHTTP, hm]
  · intro H C W s w r mr hm hp
    simp only [ServeHTTP, hm, hp]
  · intro H C W s w r mr h hm hp
    simp only [ServeHTTP, hm, hp]

/-- C2 witness: the dispatch contract applied to a concrete route table with
one GET route: an unknown method gets 405, an unknown path gets 404, and the
registered pair invokes the registered handler with the fresh context. -/
theorem serve_http_dispatch_w :
    ServeHTTP (Handle (New Nat Unit) "GET" "/" 7) () { method := "POST", path := "/" }
      = .errorResponse (httpError "Method not allowed" 405)
    ∧ ServeHTTP (Handle (New Nat Unit) "GET" "/" 7) () { method := "GET", path := "/x" }
      = .errorResponse (httpError "Not found" 404)
    ∧ ServeHTTP (Handle (New Nat Unit) "GET" "/" 7) () { method := "GET", path := "/" }
      = .invoke 7 { req := { method := "GET", path := "/" }, resp := (), params := [] } := by
  refine ⟨?_, ?_, ?_⟩
  · exact serve_http_dispatch.1 Nat Unit Unit (Handle (New Nat Unit) "GET" "/" 7) ()
      { method := "POST", path := "/" } (by decide)
  · exact serve_http_dispatch.2.1 Nat Unit Unit (Handle (New Nat Unit) "GET" "/" 7) ()
      { method := "GET", path := "/x" } [("/", 7)] (by decide) (by decide)
  · exact serve_http_dispatch.2.2 Nat Unit Unit (Handle (New Nat Unit) "GET" "/" 7) ()
      { method := "GET", path := "/" } [("/", 7)] 7 (by decide) (by decide)

/-- C3: a panic raised by the update callback during `Update` is caught at
the update handler's boundary (the deferred `recover` in
src/handlers/handlers.go lines 24-30), converted into the 500 "Server error"
response, and never escapes the handler (for every run, `escaped = none`). -/
theorem update_panic_contained :
    (∀ (W : Type) (upd : Context W → UpdateOutcome) (c : Context W) (m : String),
      c.req.method = "POST" → upd c = .panicked m →
      UpdateComponent upd c =
        { resp := { status := 500, body := "Server error", contentType := none }
          updateCalls := 1, escaped := none })
    ∧ (∀ (W : Type) (upd : Context W → UpdateOutcome) (c : Context W),
      (UpdateComponent upd c).escaped = none) := by
  constructor
  · intro W upd c m hm hp
    simp only [UpdateComponent, hm, hp]
    simp
  · intro W upd c
    by_cases hm : c.req.method ≠ "POST"
    · simp only [UpdateComponent, if_pos hm]
    · simp only [UpdateComponent, if_neg hm]
      cases upd c <;> rfl

/-- C3 witness: a callback that always panics, invoked through the handler
on a concrete POST context, produces the contained 500 response. -/
theorem update_panic_contained_w :
    UpdateComponent (fun _ => UpdateOutcome.panicked "boom")
        ({ req := { method := "POST", path := "/update/status" }, resp := (), params := [] } : Context Unit)
      = { resp := { status := 500, body := "Server error", contentType := none }
          updateCalls := 1, escaped := none }
    ∧ (UpdateComponent (fun _ => UpdateOutcome.panicked "boom")
        ({ req := { method := "POST", path := "/update/status" }, resp := (), params := [] } : Context Unit)).escaped = none := by
  constructor
  · exact update_panic_contained.1 Unit (fun _ => UpdateOutcome.panicked "boom")
      { req := { method := "POST", path := "/update/status" }, resp := (), params := [] }
      "boom" rfl rfl
  · exact update_panic_contained.2 Unit (fun _ => UpdateOutcome.panicked "boom")
      { req := { method := "POST", path := "/update/status" }, resp := (), params := [] }

/-- C8: the update handler rejects every non-POST request with the 405
response before delegating (zero `Update` invocations), and on a POST whose
callback returns normally it invokes `Update` exactly once and writes the
plain-text 200 "OK" response. -/
theorem update_handler_method_gate :
    (∀ (W : Type) (upd : Context W → UpdateOutcome) (c : Context W),
      c.req.method ≠ "POST" →
      UpdateComponent upd c =
        { resp := httpError "Method not allowed" 405, updateCalls := 0, escaped := none })
    ∧ (∀ (W : Type) (upd : Context W → UpdateOutcome) (c : Context W),
      c.req.method = "POST" → upd c = .ok →
      UpdateComponent upd c =
        { resp := { status := 200, body := "OK", contentType := some "text/plain" }
          updateCalls := 1, escaped := none }) := by
  constructor
  · intro W upd c hm
    simp only [UpdateComponent, if_pos hm]
  · intro W upd c hm hu
    simp only [UpdateComponent, hm, hu]
    simp

/-- C8 witness: a GET request is rejected with 405 and no `Update` call; the
same handler on a POST with a normally returning callback answers 200 "OK". -/
theorem update_handler_method_gate_w :
    UpdateComponent (fun _ => UpdateOutcome.ok)
        ({ req := { method := "GET", path := "/update/status" }, resp := (), params := [] } : Context Unit)
      = { resp := httpError "Method not allowed" 405, updateCalls := 0, escaped := none }
    ∧ UpdateComponent (fun _ => UpdateOutcome.ok)
        ({ req := { method := "POST", path := "/update/status" }, resp := (), params := [] } : Context Unit)
      = { resp := { status := 200, body := "OK", contentType := some "text/plain" }
          updateCalls := 1, escaped := none } := by
  constructor
  · exact update_handler_method_gate.1 Unit (fun _ => UpdateOutcome.ok)
      { req := { method := "GET", path := "/update/status" }, resp := (), params := [] }
      (by decide)
  · exact update_handler_method_gate.2 Unit (fun _ => UpdateOutcome.ok)
      { req := { method := "POST", path := "/update/status" }, resp := (), params := [] }
      rfl rfl

/-! Closed forms for the streaming loop's observables. -/

theorem sseLoop_frames (renderAt : Nat → Except String String) :
    ∀ (sched : List SelStep) (k : Nat),
      (sseLoop renderAt k sched).frames
        = (List.range (ticksBefore sched)).map (fun i => frameFor (renderAt (k + i))) := by
  intro sched
  induction sched with
  | nil => intro k; simp [sseLoop, ticksBefore]
  | cons st rest ih =>
    intro k
    by_cases hc : st.choseCancel
    · simp [sseLoop, ticksBefore, hc]
    · simp only [sseLoop, ticksBefore, hc, if_neg, ite_false, Bool.false_eq_true]
      rw [ih (k + 1), List.range_succ_eq_map, List.map_cons, List.map_map]
      refine congrArg₂ List.cons (by rw [Nat.add_zero]) ?_
      refine List.map_congr_left fun i _ => ?_
      simp [Function.comp, Nat.add_comm, Nat.add_assoc, Nat.add_left_comm]

theorem sseLoop_flushes (renderAt : Nat → Except String String) :
    ∀ (sched : List SelStep) (k : Nat),
      (sseLoop renderAt k sched).flushes = ticksBefore sched := by
  intro sched
  induction sched with
  | nil => intro k; simp [sseLoop, ticksBefore]
  | cons st rest ih =>
    intro k
    by_cases hc : st.choseCancel
    · simp [sseLoop, ticksBefore, hc]
    · simp [sseLoop, ticksBefore, hc, ih (k + 1)]

theorem sseLoop_stops (renderAt : Nat → Except String String) :
    ∀ (sched : List SelStep) (k : Nat),
      (sseLoop renderAt k sched).tickerStops
        = (if sched.any (fun st => st.choseCancel) then 1 else 0) := by
  intro sched
  induction sched with
  | nil => intro k; simp [sseLoop]
  | cons st rest ih =>
    intro k
    by_cases hc : st.choseCancel
    · simp [sseLoop, hc]
    · simp [sseLoop, hc, ih (k + 1)]

theorem sseLoop_exited (renderAt : Nat → Except String String) :
    ∀ (sched : List SelStep) (k : Nat),
      (sseLoop renderAt k sched).exited = sched.any (fun st => st.choseCancel) := by
  intro sched
  induction sched with
  | nil => intro k; simp [sseLoop]
  | cons st rest ih =>
    intro k
    by_cases hc : st.choseCancel
    · simp [sseLoop, hc]
    · simp [sseLoop, hc, ih (k + 1)]

/-- C7: on every tick the loop writes exactly one event frame and forces one
flush; the frame is the literal prefix "data: ", then the rendered markup -
or "Error: " and the message when that tick's render failed - then two line
terminators; a render failure only changes that tick's frame, the stream
continues (the k-th frame is always present and determined by the k-th
render outcome). -/
theorem sse_frame_per_tick (renderAt : Nat → Except String String)
    (sched : List SelStep) :
    (SSEHandler true renderAt sched).run.frames
      = (List.range (ticksBefore sched)).map (fun i => frameFor (renderAt i))
    ∧ (SSEHandler true renderAt sched).run.flushes = ticksBefore sched
    ∧ (∀ h, frameFor (.ok h) = "data: " ++ h ++ "\n\n")
    ∧ (∀ e, frameFor (.error e) = "data: Error: " ++ e ++ "\n\n") := by
  refine ⟨?_, ?_, fun h => rfl, fun e => rfl⟩
  · show (sseLoop renderAt 0 sched).frames = _
    rw [sseLoop_frames renderAt sched 0]
    simp
  · exact sseLoop_flushes renderAt sched 0

/-- C4 counterexample: a Go-valid run in which the Done channel has already
closed (`cancelReady = true`) while a tick is simultaneously pending, the
select chooses the tick (Go's select picks among ready cases without
priority), and one more frame is written after cancellation fired - refuting
"once cancellation fires the loop exits without further writes even if a
tick is already pending (cancellation wins the race)". -/
theorem sse_tick_after_cancel_cex :
    validSchedule false
        [{ tickReady := true, cancelReady := true, choseCancel := false },
         { tickReady := false, cancelReady := true, choseCancel := true }] = true
    ∧ framesAfterCancelFired false
        [{ tickReady := true, cancelReady := true, choseCancel := false },
         { tickReady := false, cancelReady := true, choseCancel := true }] = 1
    ∧ (sseLoop (fun _ => Except.ok "x") 0
        [{ tickReady := true, cancelReady := true, choseCancel := false },
         { tickReady := false, cancelReady := true, choseCancel := true }]).frames.length
      = 1 := by
  refine ⟨rfl, rfl, rfl⟩

/-- C4 (amended): a run of N ticks followed by the cancellation case being
selected writes exactly N event frames, releases the ticker exactly once,
and performs no further writes once the cancellation case is observed (steps
after it contribute nothing); but when a tick and the cancellation are
simultaneously ready the select may process the pending tick first, so a
frame can still be written after cancellation fires - cancellation wins only
once it is observed by the select. -/
theorem sse_cancellation_behavior :
    (∀ (renderAt : Nat → Except String String) (N : Nat) (st : SelStep)
        (rest : List SelStep), st.choseCancel = true →
      validSchedule false
          (List.replicate N { tickReady := true, cancelReady := false, choseCancel := false }
            ++ [{ tickReady := false, cancelReady := true, choseCancel := true }]) = true
      ∧ (sseLoop renderAt 0
          (List.replicate N { tickReady := true, cancelReady := false, choseCancel := false }
            ++ st :: rest)).frames.length = N
      ∧ (sseLoop renderAt 0
          (List.replicate N { tickReady := true, cancelReady := false, choseCancel := false }
            ++ st :: rest)).tickerStops = 1
      ∧ (sseLoop renderAt 0
          (List.replicate N { tickReady := true, cancelReady := false, choseCancel := false }
            ++ st :: rest)).exited = true)
    ∧ (∀ (renderAt : Nat → Except String String) (k : Nat) (pre : List SelStep)
        (st : SelStep) (rest : List SelStep), st.choseCancel = true →
      sseLoop renderAt k (pre ++ st :: rest) = sseLoop renderAt k (pre ++ [st])) := by
  constructor
  · intro renderAt N st rest hc
    have hticks : ∀ M, ticksBefore
        (List.replicate M { tickReady := true, cancelReady := false, choseCancel := false }
          ++ st :: rest) = M := by
      intro M
      induction M with
      | zero => simp [ticksBefore, hc]
      | succ n ihn => simp [ticksBefore, List.replicate_succ, ihn]
    have hvalid : ∀ M, validSchedule false
        (List.replicate M { tickReady := true, cancelReady := false, choseCancel := false }
          ++ [{ tickReady := false, cancelReady := true, choseCancel := true }]) = true := by
      intro M
      induction M with
      | zero => rfl
      | succ n ihn => simpa [List.replicate_succ, validSchedule] using ihn
    refine ⟨hvalid N, ?_, ?_, ?_⟩
    · rw [sseLoop_frames renderAt _ 0, List.length_map, List.length_range, hticks N]
    · rw [sseLoop_stops renderAt _ 0]
      simp [hc]
    · rw [sseLoop_exited renderAt _ 0]
      simp [hc]
  · intro renderAt k pre st rest hc
    induction pre generalizing k with
    | nil => simp [sseLoop, hc]
    | cons p ps ih =>
      by_cases hp : p.choseCancel
      · simp [sseLoop, hp]
      · simp [sseLoop, hp, ih (k + 1)]

/-- C4 witness: the amended cancellation behavior applied at two concrete
ticks followed by a concrete cancellation step. -/
theorem sse_cancellation_behavior_w :
    ((sseLoop (fun _ => Except.ok "x") 0
        (List.replicate 2 { tickReady := true, cancelReady := false, choseCancel := false }
          ++ ({ tickReady := false, cancelReady := true, choseCancel := true } : SelStep)
            :: [{ tickReady := true, cancelReady := true, choseCancel := true }])).frames.length = 2)
    ∧ sseLoop (fun _ => Except.ok "x") 0
        ([{ tickReady := true, cancelReady := false, choseCancel := false }]
          ++ ({ tickReady := false, cancelReady := true, choseCancel := true } : SelStep)
            :: [{ tickReady := true, cancelReady := true, choseCancel := true }])
      = sseLoop (fun _ => Except.ok "x") 0
          ([{ tickReady := true, cancelReady := false, choseCancel := false }]
            ++ [{ tickReady := false, cancelReady := true, choseCancel := true }]) := by
  constructor
  · exact (sse_cancellation_behavior.1 (fun _ => Except.ok "x") 2
      { tickReady := false, cancelReady := true, choseCancel := true }
      [{ tickReady := true, cancelReady := true, choseCancel := true }] rfl).2.1
  · exact sse_cancellation_behavior.2 (fun _ => Except.ok "x") 0
      [{ tickReady := true, cancelReady := false, choseCancel := false }]
      { tickReady := false, cancelReady := true, choseCancel := true }
      [{ tickReady := true, cancelReady := true, choseCancel := true }] rfl

/-! Lemmas about the interleaving semantics. -/

theorem exec_cons_inv (x : Bool) (s : List Bool) (owner : Option Bool)
    (p : Bool → List Act) (tr : List (Bool × Act))
    (h : exec (x :: s) owner p = some tr) :
    ∃ a rest owner' tr', p x = a :: rest ∧ stepAct owner x a = some owner'
      ∧ exec s owner' (setProg p x rest) = some tr' ∧ tr = (x, a) :: tr' := by
  unfold exec at h
  cases hpx : p x with
  | nil => simp only [hpx] at h; cases h
  | cons a rest =>
    simp only [hpx] at h
    cases hstep : stepAct owner x a with
    | none => simp only [hstep] at h; cases h
    | some owner' =>
      simp only [hstep] at h
      cases hrec : exec s owner' (setProg p x rest) with
      | none => simp only [hrec] at h; cases h
      | some tr' =>
        simp only [hrec] at h
        injection h with h
        exact ⟨a, rest, owner', tr', rfl, hstep, hrec, h.symm⟩

theorem exec_idle (t : Bool) :
    ∀ (sched : List Bool) (owner : Option Bool) (p : Bool → List Act),
      p t = [] → ∀ tr, exec sched owner p = some tr →
      tr.map Prod.fst = List.replicate tr.length (!t) := by
  intro sched
  induction sched with
  | nil =>
    intro owner p hpt tr h
    injection h with h
    subst h
    rfl
  | cons x s ih =>
    intro owner p hpt tr h
    obtain ⟨a, rest, owner', tr', hpx, hstep, hrec, rfl⟩ := exec_cons_inv x s owner p tr h
    have hx : x ≠ t := by
      intro hh
      subst hh
      rw [hpt] at hpx
      cases hpx
    have hpt' : setProg p x rest t = [] := by
      simp only [setProg, if_neg (Ne.symm hx)]
      exact hpt
    have ihh := ih owner' (setProg p x rest) hpt' tr' hrec
    have hxt : x = !t := by cases x <;> cases t <;> simp_all
    simp [ihh, hxt, List.replicate_succ]

theorem exec_crit :
    ∀ (sched : List Bool) (t : Bool) (body q : List Act) (p : Bool → List Act)
      (tr : List (Bool × Act)),
      lockFreeL body = true → p t = body ++ [.unlock] → p (!t) = .lock :: q →
      exec sched (some t) p = some tr →
      ∃ a b, tr.map Prod.fst = List.replicate a t ++ List.replicate b (!t) := by
  intro sched
  induction sched with
  | nil =>
    intro t body q p tr hlf hpt hpo h
    injection h with h
    subst h
    exact ⟨0, 0, rfl⟩
  | cons x s ih =>
    intro t body q p tr hlf hpt hpo h
    obtain ⟨a, rest, owner', tr', hpx, hstep, hrec, rfl⟩ :=
      exec_cons_inv x s (some t) p tr h
    by_cases hx : x = t
    · subst hx
      rw [hpt] at hpx
      cases body with
      | nil =>
        simp only [List.nil_append] at hpx
        injection hpx with ha hrest
        subst ha
        subst hrest
        simp only [stepAct, if_pos rfl] at hstep
        injection hstep with hstep
        subst hstep
        have hidle : setProg p x [] x = [] := by simp [setProg]
        have := exec_idle x s none (setProg p x []) hidle tr' hrec
        exact ⟨1, tr'.length, by simp [this, List.replicate_succ]⟩
      | cons a0 b0 =>
        simp only [List.cons_append] at hpx
        injection hpx with ha hrest
        subst ha
        subst hrest
        simp only [lockFreeL, List.all_cons, Bool.and_eq_true] at hlf
        have ha0 : stepAct (some x) x a0 = some (some x) := by
          cases a0 <;> simp_all [stepAct]
        rw [ha0] at hstep
        injection hstep with hstep
        subst hstep
        have hpt' : setProg p x (b0 ++ [.unlock]) x = b0 ++ [.unlock] := by
          simp [setProg]
        have hpo' : setProg p x (b0 ++ [.unlock]) (!x) = .lock :: q := by
          simp only [setProg]
          rw [if_neg (by cases x <;> simp)]
          exact hpo
        obtain ⟨a', b', htr⟩ := ih x b0 q (setProg p x (b0 ++ [.unlock])) tr'
          (by simpa [lockFreeL] using hlf.2) hpt' hpo' hrec
        exact ⟨a' + 1, b', by simp [htr, List.replicate_succ]⟩
    · have hxt : x = !t := by cases x <;> cases t <;> simp_all
      rw [hxt, hpo] at hpx
      injection hpx with ha hrest
      subst ha
      have : stepAct (some t) x .lock = none := by simp [stepAct]
      rw [this] at hstep
      cases hstep

theorem all_self_replicate (m : Nat) (x : Bool) :
    (List.replicate m x).all (fun y => y = x) = true := by
  induction m with
  | zero => rfl
  | succ n ih => simp [List.replicate_succ, ih]

theorem tailSerial_self_replicate (t : Bool) (m : Nat) :
    tailSerial t (List.replicate m t) = true := by
  induction m with
  | zero => rfl
  | succ n ih => simp [List.replicate_succ, tailSerial, ih]

theorem tailSerial_replicate_append (t : Bool) (a b : Nat) :
    tailSerial t (List.replicate a t ++ List.replicate b (!t)) = true := by
  induction a with
  | zero =>
    cases b with
    | zero => rfl
    | succ m =>
      simp only [List.replicate_succ, List.nil_append, tailSerial]
      rw [if_neg (by cases t <;> simp)]
      exact all_self_replicate m (!t)
  | succ n ih =>
    simp only [List.replicate_succ, List.cons_append, tailSerial, if_pos rfl]
    exact ih

theorem exec_lockWrapped_not_overlapped
    (sched : List Bool) (pbody qbody : List Act) (tr : List (Bool × Act))
    (hp : lockFreeL pbody = true) (hq : lockFreeL qbody = true)
    (h : exec sched none (wrapProgs pbody qbody) = some tr) :
    overlappedTids (tr.map Prod.fst) = false := by
  cases sched with
  | nil =>
    injection h with h
    subst h
    rfl
  | cons x s =>
    obtain ⟨a, rest, owner', tr', hpx, hstep, hrec, rfl⟩ :=
      exec_cons_inv x s none (wrapProgs pbody qbody) tr h
    have hwx : wrapProgs pbody qbody x
        = .lock :: ((if x then pbody else qbody) ++ [.unlock]) := by
      cases x <;> rfl
    rw [hwx] at hpx
    injection hpx with ha hrest
    subst ha
    subst hrest
    have hlockstep : stepAct none x .lock = some (some x) := by simp [stepAct]
    rw [hlockstep] at hstep
    injection hstep with hstep
    subst hstep
    have hpt' : setProg (wrapProgs pbody qbody) x
        ((if x then pbody else qbody) ++ [.unlock]) x
        = (if x then pbody else qbody) ++ [.unlock] := by simp [setProg]
    have hpo' : setProg (wrapProgs pbody qbody) x
        ((if x then pbody else qbody) ++ [.unlock]) (!x)
        = .lock :: ((if !x then pbody else qbody) ++ [.unlock]) := by
      simp only [setProg]
      rw [if_neg (by cases x <;> simp)]
      cases x <;> rfl
    obtain ⟨a', b', htr⟩ := exec_crit s x (if x then pbody else qbody)
      ((if !x then pbody else qbody) ++ [.unlock])
      (setProg (wrapProgs pbody qbody) x ((if x then pbody else qbody) ++ [.unlock]))
      tr' (by cases x <;> simp [hp, hq]) hpt' hpo' hrec
    simp [overlappedTids, htr, tailSerial_replicate_append]

theorem exec_wf_no_torn :
    ∀ (sched : List Bool) (owner : Option Bool) (inwT inwF : Bool)
      (p : Bool → List Act) (tr : List (Bool × Act)),
      wfProg (decide (owner = some true)) inwT (p true) = true →
      wfProg (decide (owner = some false)) inwF (p false) = true →
      (inwT = true → owner = some true) →
      (inwF = true → owner = some false) →
      exec sched owner p = some tr →
      hasTornRead inwT inwF tr = false := by
  intro sched
  induction sched with
  | nil =>
    intro owner inwT inwF p tr _ _ _ _ h
    injection h with h
    subst h
    rfl
  | cons x s ih =>
    intro owner inwT inwF p tr hwT hwF hiT hiF h
    obtain ⟨a, rest, owner', tr', hpx, hstep, hrec, rfl⟩ := exec_cons_inv x s owner p tr h
    cases x with
    | true =>
      rw [hpx] at hwT
      cases a with
      | lock =>
        simp only [wfProg, Bool.and_eq_true, Bool.not_eq_true'] at hwT
        obtain ⟨⟨hhd, hinw⟩, hwrest⟩ := hwT
        by_cases ho : owner = none
        · subst ho
          have howner' : owner' = some true := by
            simp [stepAct] at hstep
            exact hstep.symm
          subst howner'
          simp only [hasTornRead]
          refine ih (some true) inwT inwF (setProg p true rest) tr' ?_ ?_ ?_ ?_ hrec
          · simpa [setProg] using hwrest
          · simpa [setProg] using hwF
          · exact fun _ => rfl
          · intro hh
            cases hiF hh
        · simp [stepAct, ho] at hstep
      | unlock =>
        simp only [wfProg, Bool.and_eq_true, Bool.not_eq_true', decide_eq_true_eq] at hwT
        obtain ⟨⟨ho, hinw⟩, hwrest⟩ := hwT
        subst ho
        have howner' : owner' = none := by
          simp [stepAct] at hstep
          exact hstep.symm
        subst howner'
        simp only [hasTornRead]
        refine ih none inwT inwF (setProg p true rest) tr' ?_ ?_ ?_ ?_ hrec
        · simpa [setProg] using hwrest
        · simpa [setProg] using hwF
        · intro hh
          rw [hinw] at hh
          cases hh
        · intro hh
          cases hiF hh
      | readState =>
        simp only [wfProg, Bool.and_eq_true, Bool.not_eq_true', decide_eq_true_eq] at hwT
        obtain ⟨⟨ho, hinw⟩, hwrest⟩ := hwT
        have howner' : owner' = owner := by
          simp [stepAct] at hstep
          exact hstep.symm
        rw [howner'] at hrec
        have hinwF : inwF = false := by
          cases hF : inwF
          · rfl
          · rw [hiF hF] at ho
            cases ho
        subst hinwF
        simp only [hasTornRead]
        simp only [if_true, Bool.false_or]
        refine ih owner inwT false (setProg p true rest) tr' ?_ ?_ hiT hiF hrec
        · rw [ho]
          simpa [setProg, ho] using hwrest
        · simpa [setProg] using hwF
      | writeStart =>
        simp only [wfProg, Bool.and_eq_true, Bool.not_eq_true', decide_eq_true_eq] at hwT
        obtain ⟨⟨ho, hinw⟩, hwrest⟩ := hwT
        have howner' : owner' = owner := by
          simp [stepAct] at hstep
          exact hstep.symm
        rw [howner'] at hrec
        simp only [hasTornRead, Bool.or_true, Bool.not_true, Bool.or_false]
        refine ih owner true inwF (setProg p true rest) tr' ?_ ?_ ?_ hiF hrec
        · rw [ho]
          simpa [setProg, ho] using hwrest
        · simpa [setProg] using hwF
        · exact fun _ => ho
      | writeEnd =>
        simp only [wfProg, Bool.and_eq_true, decide_eq_true_eq] at hwT
        obtain ⟨⟨ho, hinw⟩, hwrest⟩ := hwT
        have howner' : owner' = owner := by
          simp [stepAct] at hstep
          exact hstep.symm
        rw [howner'] at hrec
        simp only [hasTornRead, Bool.not_true, Bool.and_false, Bool.and_true]
        refine ih owner false inwF (setProg p true rest) tr' ?_ ?_ ?_ hiF hrec
        · rw [ho]
          simpa [setProg, ho] using hwrest
        · simpa [setProg] using hwF
        · intro hh
          cases hh
    | false =>
      rw [hpx] at hwF
      cases a with
      | lock =>
        simp only [wfProg, Bool.and_eq_true, Bool.not_eq_true'] at hwF
        obtain ⟨⟨hhd, hinw⟩, hwrest⟩ := hwF
        by_cases ho : owner = none
        · subst ho
          have howner' : owner' = some false := by
            simp [stepAct] at hstep
            exact hstep.symm
          subst howner'
          simp only [hasTornRead]
          refine ih (some false) inwT inwF (setProg p false rest) tr' ?_ ?_ ?_ ?_ hrec
          · simpa [setProg] using hwT
          · simpa [setProg] using hwrest
          · intro hh
            cases hiT hh
          · exact fun _ => rfl
        · simp [stepAct, ho] at hstep
      | unlock =>
        simp only [wfProg, Bool.and_eq_true, Bool.not_eq_true', decide_eq_true_eq] at hwF
        obtain ⟨⟨ho, hinw⟩, hwrest⟩ := hwF
        subst ho
        have howner' : owner' = none := by
          simp [stepAct] at hstep
          exact hstep.symm
        subst howner'
        simp only [hasTornRead]
        refine ih none inwT inwF (setProg p false rest) tr' ?_ ?_ ?_ ?_ hrec
        · simpa [setProg] using hwT
        · simpa [setProg] using hwrest
        · intro hh
          cases hiT hh
        · intro hh
          rw [hinw] at hh
          cases hh
      | readState =>
        simp only [wfProg, Bool.and_eq_true, Bool.not_eq_true', decide_eq_true_eq] at hwF
        obtain ⟨⟨ho, hinw⟩, hwrest⟩ := hwF
        have howner' : owner' = owner := by
          simp [stepAct] at hstep
          exact hstep.symm
        rw [howner'] at hrec
        have hinwT : inwT = false := by
          cases hT : inwT
          · rfl
          · rw [hiT hT] at ho
            cases ho
        subst hinwT
        simp only [hasTornRead]
        show (false || hasTornRead false inwF tr') = false
        rw [Bool.false_or]
        refine ih owner false inwF (setProg p false rest) tr' ?_ ?_ hiT hiF hrec
        · simpa [setProg] using hwT
        · rw [ho]
          simpa [setProg, ho] using hwrest
      | writeStart =>
        simp only [wfProg, Bool.and_eq_true, Bool.not_eq_true', decide_eq_true_eq] at hwF
        obtain ⟨⟨ho, hinw⟩, hwrest⟩ := hwF
        have howner' : owner' = owner := by
          simp [stepAct] at hstep
          exact hstep.symm
        rw [howner'] at hrec
        simp only [hasTornRead, Bool.not_false, Bool.or_true, Bool.or_false]
        refine ih owner inwT true (setProg p false rest) tr' ?_ ?_ hiT ?_ hrec
        · simpa [setProg] using hwT
        · rw [ho]
          simpa [setProg, ho] using hwrest
        · exact fun _ => ho
      | writeEnd =>
        simp only [wfProg, Bool.and_eq_true, decide_eq_true_eq] at hwF
        obtain ⟨⟨ho, hinw⟩, hwrest⟩ := hwF
        have howner' : owner' = owner := by
          simp [stepAct] at hstep
          exact hstep.symm
        rw [howner'] at hrec
        simp only [hasTornRead, Bool.not_false, Bool.and_false, Bool.and_true]
        refine ih owner inwT false (setProg p false rest) tr' ?_ ?_ hiT ?_ hrec
        · simpa [setProg] using hwT
        · rw [ho]
          simpa [setProg, ho] using hwrest
        · intro hh
          cases hh

theorem stepActC_lift (owner : Option Bool) (x : Bool) (a : Act) :
    stepActC (fun c => if c then owner else none) true x a
      = (stepAct owner x a).map (fun o => fun c => if c then o else none) := by
  have hlift : ∀ v : Option Bool,
      updateOwner (fun c => if c then owner else none) true v
        = fun c => if c then v else none := by
    intro v
    funext b
    cases b <;> simp [updateOwner]
  cases a with
  | lock =>
    simp only [stepActC, stepAct, hlift]
    by_cases ho : owner = none
    · simp [ho]
    · simp [ho]
  | unlock =>
    simp only [stepActC, stepAct, hlift]
    by_cases ho : owner = some x
    · simp [ho]
    · simp [ho]
  | readState => rfl
  | writeStart => rfl
  | writeEnd => rfl

theorem execC_one_component :
    ∀ (sched : List Bool) (owner : Option Bool) (p : Bool → List Act),
      execC sched (fun c => if c then owner else none) (fun _ => true) p
        = exec sched owner p := by
  intro sched
  induction sched with
  | nil => intro owner p; rfl
  | cons x s ih =>
    intro owner p
    cases hpx : p x with
    | nil => simp only [execC, exec, hpx]
    | cons a rest =>
      simp only [execC, exec, hpx]
      rw [stepActC_lift owner x a]
      cases hstep : stepAct owner x a with
      | none => simp only [Option.map_none']
      | some o =>
        simp only [Option.map_some']
        rw [ih o (setProg p x rest)]

theorem execC_distinct_no_contention :
    ∀ (sched : List Bool) (owners : Bool → Option Bool) (inwT inwF : Bool)
      (p : Bool → List Act),
      wfProg (decide (owners true = some true)) inwT (p true) = true →
      wfProg (decide (owners false = some false)) inwF (p false) = true →
      owners true ≠ some false →
      owners false ≠ some true →
      consumable sched (p true).length (p false).length = true →
      ∃ tr, execC sched owners (fun t => t) p = some tr := by
  intro sched
  induction sched with
  | nil =>
    intro owners inwT inwF p _ _ _ _ _
    exact ⟨[], rfl⟩
  | cons x s ih =>
    intro owners inwT inwF p hwT hwF hoT hoF hc
    cases x with
    | true =>
      simp [consumable] at hc
      obtain ⟨h0, hcs⟩ := hc
      cases hpx : p true with
      | nil => rw [hpx] at h0; simp at h0
      | cons a rest =>
        rw [hpx] at hwT
        rw [hpx] at hcs
        simp only [List.length_cons, Nat.add_sub_cancel] at hcs
        cases a with
        | lock =>
          simp only [wfProg, Bool.and_eq_true, Bool.not_eq_true'] at hwT
          obtain ⟨⟨hhd, hinw⟩, hwrest⟩ := hwT
          have honone : owners true = none := by
            cases ho : owners true with
            | none => rfl
            | some b =>
              cases b
              · exact absurd ho hoT
              · rw [ho] at hhd; simp at hhd
          have hstepEq : stepActC owners true true Act.lock
              = some (updateOwner owners true (some true)) := by
            simp [stepActC, honone]
          obtain ⟨tr', htr⟩ := ih (updateOwner owners true (some true)) inwT inwF
            (setProg p true rest)
            (by simpa [updateOwner, setProg] using hwrest)
            (by simpa [updateOwner, setProg] using hwF)
            (by simp [updateOwner])
            (by simpa [updateOwner] using hoF)
            (by simpa [setProg] using hcs)
          exact ⟨(true, Act.lock) :: tr', by simp only [execC, hpx, hstepEq, htr]⟩
        | unlock =>
          simp only [wfProg, Bool.and_eq_true, Bool.not_eq_true', decide_eq_true_eq] at hwT
          obtain ⟨⟨ho, hinw⟩, hwrest⟩ := hwT
          have hstepEq : stepActC owners true true Act.unlock
              = some (updateOwner owners true none) := by
            simp [stepActC, ho]
          obtain ⟨tr', htr⟩ := ih (updateOwner owners true none) inwT inwF
            (setProg p true rest)
            (by simpa [updateOwner, setProg] using hwrest)
            (by simpa [updateOwner, setProg] using hwF)
            (by simp [updateOwner])
            (by simpa [updateOwner] using hoF)
            (by simpa [setProg] using hcs)
          exact ⟨(true, Act.unlock) :: tr', by simp only [execC, hpx, hstepEq, htr]⟩
        | readState =>
          simp only [wfProg, Bool.and_eq_true, Bool.not_eq_true', decide_eq_true_eq] at hwT
          obtain ⟨⟨ho, hinw⟩, hwrest⟩ := hwT
          obtain ⟨tr', htr⟩ := ih owners inwT inwF (setProg p true rest)
            (by simpa [setProg] using hwrest)
            (by simpa [setProg] using hwF)
            hoT hoF
            (by simpa [setProg] using hcs)
          exact ⟨(true, Act.readState) :: tr',
            by simp only [execC, hpx, stepActC, htr]⟩
        | writeStart =>
          simp only [wfProg, Bool.and_eq_true, Bool.not_eq_true', decide_eq_true_eq] at hwT
          obtain ⟨⟨ho, hinw⟩, hwrest⟩ := hwT
          obtain ⟨tr', htr⟩ := ih owners true inwF (setProg p true rest)
            (by simpa [setProg] using hwrest)
            (by simpa [setProg] using hwF)
            hoT hoF
            (by simpa [setProg] using hcs)
          exact ⟨(true, Act.writeStart) :: tr',
            by simp only [execC, hpx, stepActC, htr]⟩
        | writeEnd =>
          simp only [wfProg, Bool.and_eq_true, decide_eq_true_eq] at hwT
          obtain ⟨⟨ho, hinw⟩, hwrest⟩ := hwT
          obtain ⟨tr', htr⟩ := ih owners false inwF (setProg p true rest)
            (by simpa [setProg] using hwrest)
            (by simpa [setProg] using hwF)
            hoT hoF
            (by simpa [setProg] using hcs)
          exact ⟨(true, Act.writeEnd) :: tr',
            by simp only [execC, hpx, stepActC, htr]⟩
    | false =>
      simp [consumable] at hc
      obtain ⟨h0, hcs⟩ := hc
      cases hpx : p false with
      | nil => rw [hpx] at h0; simp at h0
      | cons a rest =>
        rw [hpx] at hwF
        rw [hpx] at hcs
        simp only [List.length_cons, Nat.add_sub_cancel] at hcs
        cases a with
        | lock =>
          simp only [wfProg, Bool.and_eq_true, Bool.not_eq_true'] at hwF
          obtain ⟨⟨hhd, hinw⟩, hwrest⟩ := hwF
          have honone : owners false = none := by
            cases ho : owners false with
            | none => rfl
            | some b =>
              cases b
              · rw [ho] at hhd; simp at hhd
              · exact absurd ho hoF
          have hstepEq : stepActC owners false false Act.lock
              = some (updateOwner owners false (some false)) := by
            simp [stepActC, honone]
          obtain ⟨tr', htr⟩ := ih (updateOwner owners false (some false)) inwT inwF
            (setProg p false rest)
            (by simpa [updateOwner, setProg] using hwT)
            (by simpa [updateOwner, setProg] using hwrest)
            (by simpa [updateOwner] using hoT)
            (by simp [updateOwner])
            (by simpa [setProg] using hcs)
          exact ⟨(false, Act.lock) :: tr', by simp only [execC, hpx, hstepEq, htr]⟩
        | unlock =>
          simp only [wfProg, Bool.and_eq_true, Bool.not_eq_true', decide_eq_true_eq] at hwF
          obtain ⟨⟨ho, hinw⟩, hwrest⟩ := hwF
          have hstepEq : stepActC owners false false Act.unlock
              = some (updateOwner owners false none) := by
            simp [stepActC, ho]
          obtain ⟨tr', htr⟩ := ih (updateOwner owners false none) inwT inwF
            (setProg p false rest)
            (by simpa [updateOwner, setProg] using hwT)
            (by simpa [updateOwner, setProg] using hwrest)
            (by simpa [updateOwner] using hoT)
            (by simp [updateOwner])
            (by simpa [setProg] using hcs)
          exact ⟨(false, Act.unlock) :: tr', by simp only [execC, hpx, hstepEq, htr]⟩
        | readState =>
          simp only [wfProg, Bool.and_eq_true, Bool.not_eq_true', decide_eq_true_eq] at hwF
          obtain ⟨⟨ho, hinw⟩, hwrest⟩ := hwF
          obtain ⟨tr', htr⟩ := ih owners inwT inwF (setProg p false rest)
            (by simpa [setProg] using hwT)
            (by simpa [setProg] using hwrest)
            hoT hoF
            (by simpa [setProg] using hcs)
          exact ⟨(false, Act.readState) :: tr',
            by simp only [execC, hpx, stepActC, htr]⟩
        | writeStart =>
          simp only [wfProg, Bool.and_eq_true, Bool.not_eq_true', decide_eq_true_eq] at hwF
          obtain ⟨⟨ho, hinw⟩, hwrest⟩ := hwF
          obtain ⟨tr', htr⟩ := ih owners inwT true (setProg p false rest)
            (by simpa [setProg] using hwT)
            (by simpa [setProg] using hwrest)
            hoT hoF
            (by simpa [setProg] using hcs)
          exact ⟨(false, Act.writeStart) :: tr',
            by simp only [execC, hpx, stepActC, htr]⟩
        | writeEnd =>
          simp only [wfProg, Bool.and_eq_true, decide_eq_true_eq] at hwF
          obtain ⟨⟨ho, hinw⟩, hwrest⟩ := hwF
          obtain ⟨tr', htr⟩ := ih owners inwT false (setProg p false rest)
            (by simpa [setProg] using hwT)
            (by simpa [setProg] using hwrest)
            hoT hoF
            (by simpa [setProg] using hcs)
          exact ⟨(false, Act.writeEnd) :: tr',
            by simp only [execC, hpx, stepActC, htr]⟩

/-- C5 counterexample: with the `Update` of the part_000/part_001 revisions
(no lock of its own, lines 40-44 of part_000), an `Update` running the
counter application's callback (`State` then `SetState`, each synchronized)
can have a complete `Render` call interleaved strictly inside it: the
schedule below is realizable under the mutex semantics and its trace is not
serial, so `Update` and `Render` are not mutually exclusive on the same
component, refuting "Render, Update, State, and SetState are all mutually
exclusive with each other". -/
theorem update_render_overlap_cex :
    (exec [true, true, true, false, false, false, true, true, true, true] none
        (twoProgs (updateProg counterCallback) renderProg)).map
      (fun tr => overlappedTids (tr.map Prod.fst)) = some true := rfl

/-- C5 (amended): operations that are single lock-wrapped critical sections
guarded by the component's one mutex - `Render`, `State`, `SetState` (and
the part_002 `Update`) - are pairwise mutually exclusive: every realizable
interleaving of two of them is serial.  `Update` of part_000/part_001 is not
itself a critical section (see the counterexample), but atomicity still
holds: for any two operations whose state accesses all happen under the
lock - which includes such an `Update` running a callback built from the
synchronized accessors - no realizable interleaving contains a torn read,
i.e. no `Render` observes a partially written state map.  Different
component instances do not contend: each instance has its own mutex, so two
well-locked operations on two different instances can never block each
other - every schedule that only picks a thread with actions remaining is
realizable (last conjunct, over the per-instance semantics `execC`, which
restricted to one shared instance coincides with `exec` by
`execC_one_component`). -/
theorem component_lock_contract :
    (∀ (pbody qbody : List Act) (sched : List Bool) (tr : List (Bool × Act)),
      lockFreeL pbody = true → lockFreeL qbody = true →
      exec sched none (wrapProgs pbody qbody) = some tr →
      overlappedTids (tr.map Prod.fst) = false)
    ∧ (∀ (pT pF : List Act) (sched : List Bool) (tr : List (Bool × Act)),
      wfProg false false pT = true → wfProg false false pF = true →
      exec sched none (twoProgs pT pF) = some tr →
      hasTornRead false false tr = false)
    ∧ (renderProg = wrapProgs [Act.readState] [Act.writeStart, Act.writeEnd] true
        ∧ stateProg = renderProg
        ∧ setStateProg = wrapProgs [Act.readState] [Act.writeStart, Act.writeEnd] false
        ∧ lockFreeL [Act.readState] = true
        ∧ lockFreeL [Act.writeStart, Act.writeEnd] = true)
    ∧ (wfProg false false renderProg = true ∧ wfProg false false stateProg = true
        ∧ wfProg false false setStateProg = true
        ∧ wfProg false false (updateProg counterCallback) = true
        ∧ wfProg false false (updateProgLocked []) = true)
    ∧ (∀ (pT pF : List Act) (sched : List Bool),
      wfProg false false pT = true → wfProg false false pF = true →
      consumable sched pT.length pF.length = true →
      ∃ tr, execC sched (fun _ => none) (fun t => t) (twoProgs pT pF) = some tr) := by
  refine ⟨?_, ?_, ⟨rfl, rfl, rfl, rfl, rfl⟩, ⟨rfl, rfl, rfl, rfl, rfl⟩, ?_⟩
  · intro pbody qbody sched tr hp hq h
    exact exec_lockWrapped_not_overlapped sched pbody qbody tr hp hq h
  · intro pT pF sched tr hwT hwF h
    refine exec_wf_no_torn sched none false false (twoProgs pT pF) tr ?_ ?_ ?_ ?_ h
    · simpa [twoProgs] using hwT
    · simpa [twoProgs] using hwF
    · intro hh
      cases hh
    · intro hh
      cases hh
  · intro pT pF sched hwT hwF hc
    refine execC_distinct_no_contention sched (fun _ => none) false false
      (twoProgs pT pF) ?_ ?_ ?_ ?_ ?_
    · simpa [twoProgs] using hwT
    · simpa [twoProgs] using hwF
    · simp
    · simp
    · simpa [twoProgs] using hc

/-- C5 witness: the lock contract applied to concrete runs - a serial
`Render` versus `SetState` race (the only realizable order once `Render`
holds the lock), a torn-read-free run of the same pair, and a fully
interleaved `Render` versus `SetState` run on two different component
instances that is realizable because the instances' mutexes are distinct
(no contention). -/
theorem component_lock_contract_w :
    overlappedTids
        ([(true, Act.lock), (true, Act.readState), (true, Act.unlock),
          (false, Act.lock), (false, Act.writeStart), (false, Act.writeEnd),
          (false, Act.unlock)].map Prod.fst) = false
    ∧ hasTornRead false false
        [(true, Act.lock), (true, Act.readState), (true, Act.unlock),
         (false, Act.lock), (false, Act.writeStart), (false, Act.writeEnd),
         (false, Act.unlock)] = false
    ∧ ∃ tr, execC [true, false, true, false, true, false, false] (fun _ => none)
        (fun t => t) (twoProgs renderProg setStateProg) = some tr := by
  refine ⟨?_, ?_, ?_⟩
  · exact component_lock_contract.1 [Act.readState] [Act.writeStart, Act.writeEnd]
      [true, true, true, false, false, false, false] _ rfl rfl rfl
  · exact component_lock_contract.2.1 renderProg setStateProg
      [true, true, true, false, false, false, false] _ rfl rfl rfl
  · exact component_lock_contract.2.2.2.2 renderProg setStateProg
      [true, false, true, false, true, false, false] rfl rfl rfl

end SigmaFW
